import Mathlib

/-!
Verification of the FUSE cell-lineage labeling pipeline.

The repository's driver script (`src/labeling_script.py`) builds a detection
table from a metadata csv, runs the frame-by-frame lineage matcher on it, and
joins the resulting labels back onto the metadata.  The lineage registry
(`utils.lineage_management.Library`) and the matcher
(`utils.frame_by_frame.frame_by_frame`) are imported by the script but their
source is not part of this tree, so they are modelled here from the
specification; the preprocessing and export steps of the script itself are
translated directly from the source.
-/

namespace FUSE

/-- Modelled from the spec: lineage status, `{ACTIVE, TERMINATED}`
(`utils.lineage_management` is not in the tree). -/
inductive Status where
  | ACTIVE : Status
  | TERMINATED : Status
deriving DecidableEq

/-- Modelled from the spec: one segmented cell instance in one frame, with
ordinal frame index, a region identifier unique within its frame, real-valued
centroid coordinates (represented as rationals), and an optional visual
embedding vector from the Feature Store (absent on a feature-store miss).
The detection table built by the script carries exactly frame, region id and
centroid; shape descriptors are not present in it, so the morphological cost
term has no data to draw on and is omitted from the cost model. -/
structure Detection where
  frame : Nat
  region_id : Nat
  x : ℚ
  y : ℚ
  embedding : Option (List ℚ)
deriving DecidableEq

/-- Modelled from the spec: a candidate continuous cell trajectory — a stable
id, an ordered history of (frame, detection) pairs, a status, and a flag
recording whether the final `prune` pass removed it from the output table. -/
structure Lineage where
  lineage_id : Nat
  history : List (Nat × Detection)
  status : Status
  pruned : Bool
deriving DecidableEq

/-- Modelled from the spec: the lineage registry — a collection of lineages
plus the next unused lineage id (ids are assigned on creation, never reused). -/
structure Library where
  lineages : List Lineage
  next_id : Nat
deriving DecidableEq

/-- Modelled from the spec: the registry's error kinds.  `initializationError`
is fatal at startup (first frame empty); `invalidTransitionError` signals an
internal invariant violation in the Library. -/
inductive LibError where
  | initializationError : LibError
  | invalidTransitionError : LibError
deriving DecidableEq

/-- List of fresh lineages for the given detections, with ids counting up from
`n`, each seeded with a single history entry at frame `frame`. -/
def newLineages (n : Nat) (frame : Nat) : List Detection → List Lineage
  | [] => []
  | d :: rest =>
      { lineage_id := n, history := [(frame, d)],
        status := Status.ACTIVE, pruned := false } :: newLineages (n + 1) frame rest

/-- Modelled from the spec: Library construction from frame 0 — one ACTIVE
lineage per detection of the first frame; fails with `initializationError`
when the first frame has zero detections. -/
def Library.init (dets0 : List Detection) : Except LibError Library :=
  if dets0.isEmpty then Except.error LibError.initializationError
  else Except.ok { lineages := newLineages 0 0 dets0, next_id := dets0.length }

/-- Last (frame, detection) entry of a lineage's history. -/
def Lineage.lastEntry (L : Lineage) : Option (Nat × Detection) :=
  L.history.getLast?

/-- True when the detection with region id `d.region_id` is already assigned at
`frame` to some lineage other than `lid`. -/
def assignedElsewhere (lib : Library) (lid : Nat) (frame : Nat) (d : Detection) : Bool :=
  lib.lineages.any (fun L' =>
    decide (L'.lineage_id ≠ lid) &&
      L'.history.any (fun e => decide (e.1 = frame ∧ e.2.region_id = d.region_id)))

/-- Modelled from the spec: `extend(lineage_id, frame, detection)` appends a
detection to an ACTIVE lineage's history; it fails with
`invalidTransitionError` when the lineage is not ACTIVE, when `frame` is not
exactly one more than the lineage's last recorded frame, or when the
detection is already assigned to another lineage in that frame. -/
def Library.extend (lib : Library) (lid : Nat) (frame : Nat) (d : Detection) :
    Except LibError Library :=
  match lib.lineages.find? (fun L => decide (L.lineage_id = lid)) with
  | none => Except.error LibError.invalidTransitionError
  | some L =>
    match L.history.getLast? with
    | none => Except.error LibError.invalidTransitionError
    | some e =>
      if L.status ≠ Status.ACTIVE then Except.error LibError.invalidTransitionError
      else if frame ≠ e.1 + 1 then Except.error LibError.invalidTransitionError
      else if assignedElsewhere lib lid frame d then
        Except.error LibError.invalidTransitionError
      else Except.ok
        { lib with lineages := lib.lineages.map (fun L' =>
            if L'.lineage_id = lid then
              { L' with history := L'.history ++ [(frame, d)] }
            else L') }

/-- Modelled from the spec: `create(frame, detection)` starts a new ACTIVE
lineage seeded with this detection, under the next unused lineage id. -/
def Library.create (lib : Library) (frame : Nat) (d : Detection) : Library :=
  { lineages := lib.lineages ++
      [{ lineage_id := lib.next_id, history := [(frame, d)],
         status := Status.ACTIVE, pruned := false }],
    next_id := lib.next_id + 1 }

/-- Modelled from the spec: `terminate(lineage_id)` marks a lineage TERMINATED;
it is then permanently excluded from future matching. -/
def Library.terminate (lib : Library) (lid : Nat) : Library :=
  { lib with lineages := lib.lineages.map (fun L =>
      if L.lineage_id = lid then { L with status := Status.TERMINATED } else L) }

/-- Sequence of `terminate` calls, one per listed lineage id. -/
def terminateAll (lib : Library) : List Nat → Library
  | [] => lib
  | lid :: rest => terminateAll (lib.terminate lid) rest

/-- Sequence of `create` calls, one per listed detection, in list order. -/
def createAll (lib : Library) (frame : Nat) : List Detection → Library
  | [] => lib
  | d :: rest => createAll (lib.create frame d) frame rest

/-- Per-lineage effect of `prune`: a lineage shorter than the connectivity
threshold is marked TERMINATED and flagged as removed from the output. -/
def pruneL (k : Nat) (L : Lineage) : Lineage :=
  if L.history.length < k then
    { L with status := Status.TERMINATED, pruned := true }
  else L

/-- Modelled from the spec: `prune(min_connectivity)` marks TERMINATED (and
removes from the output table) every lineage, ACTIVE or already TERMINATED,
whose length is below `min_connectivity`. -/
def Library.prune (lib : Library) (k : Nat) : Library :=
  { lib with lineages := lib.lineages.map (pruneL k) }

/-- Ordering of output rows `(frame, region_id, lineage_id)` by
(lineage_id, frame). -/
def tableRowLe (a b : Nat × Nat × Nat) : Prop :=
  a.2.2 < b.2.2 ∨ (a.2.2 = b.2.2 ∧ a.1 ≤ b.1)

instance : DecidableRel tableRowLe := fun a b => by
  unfold tableRowLe; exact inferInstance

/-- Output rows contributed by one lineage: one (frame, region_id, lineage_id)
triple per history entry. -/
def rowsOf (L : Lineage) : List (Nat × Nat × Nat) :=
  L.history.map (fun e => (e.1, e.2.region_id, L.lineage_id))

/-- Modelled from the spec: `to_table()` flattens the registry into rows of
(frame, region_id, lineage_id) for every lineage not removed by pruning,
with stable ordering by (lineage_id, frame).  The script calls this
`to_dataframe`. -/
def Library.to_table (lib : Library) : List (Nat × Nat × Nat) :=
  List.insertionSort tableRowLe
    ((lib.lineages.filter (fun L => !L.pruned)).flatMap rowsOf)

/-- Squared Euclidean distance between two points. -/
def sqDist (x1 y1 x2 y2 : ℚ) : ℚ :=
  (x1 - x2) * (x1 - x2) + (y1 - y2) * (y1 - y2)

/-- Modelled from the spec: the hard spatial admissibility cutoff — a
(lineage, detection) pair is admissible when the Euclidean distance between
the lineage's last centroid and the detection's centroid is at most
`search_radius`; distances are compared through their squares so the test
stays in the rationals. -/
def admissibleB (radius : ℚ) (L : Lineage) (d : Detection) : Bool :=
  match L.lastEntry with
  | some e => decide (sqDist e.2.x e.2.y d.x d.y ≤ radius * radius)
  | none => false

/-- Squared Euclidean distance between two embedding vectors. -/
def sqVecDist (v w : List ℚ) : ℚ :=
  (List.zipWith (fun a b => (a - b) * (a - b)) v w).sum

/-- Modelled from the spec: visual cost term — distance between the lineage's
last embedding and the detection's embedding; on a feature-store miss it
falls back to 0 (spatial-only cost), a recoverable condition. -/
def visualCost (L : Lineage) (d : Detection) : ℚ :=
  match L.lastEntry, d.embedding with
  | some e, some w =>
    match e.2.embedding with
    | some v => sqVecDist v w
    | none => 0
  | _, _ => 0

/-- Modelled from the spec: spatial cost term — distance between the lineage's
last centroid and the detection's centroid (squared, see `admissibleB`). -/
def spatialCost (L : Lineage) (d : Detection) : ℚ :=
  match L.lastEntry with
  | some e => sqDist e.2.x e.2.y d.x d.y
  | none => 0

/-- Modelled from the spec: combined cost — weighted sum of the spatial and
visual terms (`wv` is the visual weight; the detection table carries no shape
descriptors, so there is no morphological term to add). -/
def pairCost (wv : ℚ) (L : Lineage) (d : Detection) : ℚ :=
  spatialCost L d + wv * visualCost L d

/-- Modelled from the spec: the admissible candidate set for one frame
transition — every (ACTIVE lineage, detection) pair within the search
radius; pairs beyond the radius are excluded from the candidate set
entirely, before any cost is computed. -/
def candidatePairs (lib : Library) (dets : List Detection) (radius : ℚ) :
    List (Lineage × Detection) :=
  (lib.lineages.filter (fun L => decide (L.status = Status.ACTIVE))).flatMap
    (fun L => (dets.filter (fun d => admissibleB radius L d)).map (fun d => (L, d)))

/-- True when the pair list is one-to-one: no lineage id and no detection
occurs twice. -/
def oneToOneB (m : List (Lineage × Detection)) : Bool :=
  decide ((m.map (fun p => p.1.lineage_id)).Nodup ∧ (m.map Prod.snd).Nodup)

/-- Total cost of a matching under a given pair cost. -/
def totalCost (cost : Lineage → Detection → ℚ) (m : List (Lineage × Detection)) : ℚ :=
  (m.map (fun p => cost p.1 p.2)).sum

/-- Lexicographic comparison of (lineage id, region id) key lists, used only
for deterministic tie-breaking between equal-cost matchings. -/
def keyLt : List (Nat × Nat) → List (Nat × Nat) → Bool
  | [], [] => false
  | [], _ :: _ => true
  | _ :: _, [] => false
  | a :: l, b :: m =>
    if a.1 < b.1 then true
    else if b.1 < a.1 then false
    else if a.2 < b.2 then true
    else if b.2 < a.2 then false
    else keyLt l m

/-- Modelled from the spec: preference between two one-to-one matchings —
larger cardinality first (lineages and detections with an admissible partner
are matched rather than dropped), then smaller total cost, then a
deterministic tie-break on ascending (lineage id, detection id). -/
def better (cost : Lineage → Detection → ℚ) (a b : List (Lineage × Detection)) : Bool :=
  if b.length < a.length then true
  else if a.length < b.length then false
  else if totalCost cost a < totalCost cost b then true
  else if totalCost cost b < totalCost cost a then false
  else keyLt (a.map (fun p => (p.1.lineage_id, p.2.region_id)))
             (b.map (fun p => (p.1.lineage_id, p.2.region_id)))

/-- Modelled from the spec: exact solution of the bipartite assignment over the
admissible pairs — enumerate every one-to-one subset of the candidate list
and keep the best under `better` (an exhaustive exact solver in place of the
Hungarian algorithm; identical optimum). -/
def chooseMatching (cand : List (Lineage × Detection))
    (cost : Lineage → Detection → ℚ) : List (Lineage × Detection) :=
  (cand.sublists.filter oneToOneB).foldl
    (fun best m => if better cost m best then m else best) []

/-- Modelled from the spec: the matching the Matcher commits for one frame
transition, over the admissible candidate pairs. -/
def matchingOf (lib : Library) (dets : List Detection) (radius wv : ℚ) :
    List (Lineage × Detection) :=
  chooseMatching (candidatePairs lib dets radius) (pairCost wv)

/-- Apply `extend` once per matched pair, propagating registry errors. -/
def applyExtends (lib : Library) (frame : Nat) :
    List (Lineage × Detection) → Except LibError Library
  | [] => Except.ok lib
  | p :: rest =>
    match lib.extend p.1.lineage_id frame p.2 with
    | Except.ok lib1 => applyExtends lib1 frame rest
    | Except.error e => Except.error e

/-- Ids of the ACTIVE lineages left unmatched by `m`. -/
def unmatchedActives (lib : Library) (m : List (Lineage × Detection)) : List Nat :=
  ((lib.lineages.filter (fun L => decide (L.status = Status.ACTIVE))).map
      (fun L => L.lineage_id)).filter
    (fun lid => decide (lid ∉ m.map (fun p => p.1.lineage_id)))

/-- Detections of the new frame left unmatched by `m`. -/
def unmatchedDets (dets : List Detection) (m : List (Lineage × Detection)) :
    List Detection :=
  dets.filter (fun d => decide (d ∉ m.map Prod.snd))

/-- Modelled from the spec: one frame transition of the Matcher — solve the
assignment over admissible pairs, then `extend` each matched lineage,
`terminate` each unmatched ACTIVE lineage, and `create` a lineage for each
unmatched detection.  Registry errors propagate to the caller, never
swallowed. -/
def matchFrame (lib : Library) (frame : Nat) (dets : List Detection)
    (radius wv : ℚ) : Except LibError Library :=
  match applyExtends lib frame (matchingOf lib dets radius wv) with
  | Except.ok lib1 =>
    Except.ok (createAll
      (terminateAll lib1 (unmatchedActives lib (matchingOf lib dets radius wv)))
      frame (unmatchedDets dets (matchingOf lib dets radius wv)))
  | Except.error e => Except.error e

/-- Modelled from the spec: the sequential frame loop — frame transitions run
in strict temporal order, each consuming the Library the previous one
produced. -/
def runFrames (radius wv : ℚ) : Library → Nat → List (List Detection) →
    Except LibError Library
  | lib, _, [] => Except.ok lib
  | lib, frame, ds :: rest =>
    match matchFrame lib frame ds radius wv with
    | Except.ok lib' => runFrames radius wv lib' (frame + 1) rest
    | Except.error e => Except.error e

/-- Modelled from the spec: `frame_by_frame` — run the Matcher over all frame
transitions starting at frame 1, then invoke the Finalizer's
`prune(min_connectivity)` once at the end. -/
def frameByFrame (lib : Library) (framesDets : List (List Detection))
    (radius wv : ℚ) (minConn : Nat) : Except LibError Library :=
  match runFrames radius wv lib 1 framesDets with
  | Except.ok lib' => Except.ok (lib'.prune minConn)
  | Except.error e => Except.error e

/-! ### Basic lemmas about the registry operations -/

theorem newLineages_length (n f : Nat) (ds : List Detection) :
    (newLineages n f ds).length = ds.length := by
  induction ds generalizing n with
  | nil => rfl
  | cons d rest ih => simp [newLineages, ih]

theorem newLineages_getElem? (n f : Nat) (ds : List Detection) (i : Nat) :
    (newLineages n f ds)[i]? = ds[i]?.map (fun d =>
      { lineage_id := n + i, history := [(f, d)],
        status := Status.ACTIVE, pruned := false }) := by
  induction ds generalizing n i with
  | nil => simp [newLineages]
  | cons d rest ih =>
    cases i with
    | zero => simp [newLineages]
    | succ j =>
      simp only [newLineages, List.getElem?_cons_succ, ih (n + 1) j]
      have : n + 1 + j = n + (j + 1) := by omega
      rw [this]

theorem mem_newLineages {n f : Nat} {ds : List Detection} {L : Lineage} :
    L ∈ newLineages n f ds ↔
      ∃ i d, ds[i]? = some d ∧
        L = { lineage_id := n + i, history := [(f, d)],
              status := Status.ACTIVE, pruned := false } := by
  constructor
  · intro h
    obtain ⟨i, h2⟩ := List.mem_iff_getElem?.mp h
    rw [newLineages_getElem?] at h2
    cases hd : ds[i]? with
    | none => rw [hd] at h2; simp at h2
    | some d =>
      rw [hd] at h2
      simp only [Option.map_some'] at h2
      exact ⟨i, d, hd, ((Option.some.injEq _ _).mp h2).symm⟩
  · rintro ⟨i, d, hd, rfl⟩
    refine List.mem_iff_getElem?.mpr ⟨i, ?_⟩
    rw [newLineages_getElem?, hd]
    rfl

/-- C4: Library initialization from frame 0 creates exactly one ACTIVE lineage
per detection of the first frame (the i-th lineage carries id i and the
single history entry (0, i-th detection)), and fails with
InitializationError if and only if the first frame has zero detections, in
which case no Library value is produced. -/
theorem C4_library_init (dets0 : List Detection) :
    (Library.init dets0 = Except.error LibError.initializationError ↔ dets0 = [])
    ∧ (dets0 = [] → ∀ lib, Library.init dets0 ≠ Except.ok lib)
    ∧ (∀ lib, Library.init dets0 = Except.ok lib →
        lib.lineages.length = dets0.length
        ∧ (∀ L ∈ lib.lineages, L.status = Status.ACTIVE ∧ L.history.length = 1)
        ∧ (∀ i : Nat, lib.lineages[i]? = dets0[i]?.map (fun d =>
            ({ lineage_id := i, history := [(0, d)],
               status := Status.ACTIVE, pruned := false } : Lineage)))) := by
  refine ⟨?_, ?_, ?_⟩
  · cases dets0 with
    | nil => simp [Library.init]
    | cons d rest => simp [Library.init]
  · rintro rfl lib h
    simp [Library.init] at h
  · intro lib h
    have hne : dets0.isEmpty = false := by
      cases dets0 with
      | nil => simp [Library.init] at h
      | cons d rest => rfl
    simp only [Library.init, hne, Bool.false_eq_true, if_false, Except.ok.injEq] at h
    subst h
    refine ⟨newLineages_length 0 0 dets0, ?_, ?_⟩
    · intro L hL
      obtain ⟨i, d, _, rfl⟩ := mem_newLineages.mp hL
      exact ⟨rfl, rfl⟩
    · intro i
      have := newLineages_getElem? 0 0 dets0 i
      simpa using this

/-- Sample detection at the origin of frame 0, region 1. -/
def sampleDet0 : Detection :=
  { frame := 0, region_id := 1, x := 0, y := 0, embedding := none }

/-- Sample detection near the origin in frame 1, region 2. -/
def sampleDet1 : Detection :=
  { frame := 1, region_id := 2, x := 1, y := 1, embedding := none }

/-- Sample lineage holding `sampleDet0` at frame 0. -/
def sampleLin : Lineage :=
  { lineage_id := 0, history := [(0, sampleDet0)],
    status := Status.ACTIVE, pruned := false }

/-- Sample one-lineage Library: the result of initializing from `[sampleDet0]`. -/
def sampleLib : Library := { lineages := [sampleLin], next_id := 1 }

/-- Witness for C4 at a concrete one-detection first frame. -/
theorem C4_witness :
    Library.init [sampleDet0] = Except.ok sampleLib
    ∧ sampleLib.lineages.length = [sampleDet0].length := by
  refine ⟨by rfl, ?_⟩
  exact ((C4_library_init [sampleDet0]).2.2 sampleLib (by rfl)).1

/-- C5: `extend` appends the detection to the lineage's history exactly when
the lineage is ACTIVE, the frame is one past the lineage's last recorded
frame, and the detection is not already assigned to another lineage in that
frame; it fails with InvalidTransitionError exactly when one of the three
preconditions is violated (the error is returned to the caller, and the
input Library value is untouched). -/
theorem C5_extend_contract (lib : Library) (lid frame : Nat) (d : Detection)
    (L : Lineage) (e : Nat × Detection)
    (hfind : lib.lineages.find? (fun L' => decide (L'.lineage_id = lid)) = some L)
    (hlast : L.history.getLast? = some e) :
    ((lib.extend lid frame d = Except.error LibError.invalidTransitionError) ↔
      (L.status ≠ Status.ACTIVE ∨ frame ≠ e.1 + 1
        ∨ assignedElsewhere lib lid frame d = true))
    ∧ ((L.status = Status.ACTIVE ∧ frame = e.1 + 1
        ∧ assignedElsewhere lib lid frame d = false) →
      lib.extend lid frame d = Except.ok
        { lib with lineages := lib.lineages.map (fun L' =>
            if L'.lineage_id = lid then
              { L' with history := L'.history ++ [(frame, d)] }
            else L') })
    ∧ (∀ lib', lib.extend lid frame d = Except.ok lib' →
        lib'.lineages = lib.lineages.map (fun L' =>
          if L'.lineage_id = lid then
            { L' with history := L'.history ++ [(frame, d)] }
          else L')
        ∧ lib'.next_id = lib.next_id) := by
  unfold Library.extend
  rw [hfind]
  dsimp only
  rw [hlast]
  by_cases h1 : L.status = Status.ACTIVE
  · by_cases h2 : frame = e.1 + 1
    · subst h2
      by_cases h3 : assignedElsewhere lib lid (e.1 + 1) d = true
      · simp [h1, h3]
      · simp [h1, h3]
    · simp [h1, h2]
  · simp [h1]

/-- Witness for C5: a concrete ACTIVE one-lineage Library extended by a
detection at the successor frame. -/
theorem C5_witness :
    (sampleLib.extend 0 1 sampleDet1
        = Except.error LibError.invalidTransitionError) ↔
      ((sampleLib.lineages.head (by simp [sampleLib])).status ≠ Status.ACTIVE
        ∨ (1 : Nat) ≠ 0 + 1
        ∨ assignedElsewhere sampleLib 0 1 sampleDet1 = true) := by
  exact (C5_extend_contract sampleLib 0 1 sampleDet1 _ (0, sampleDet0)
    (by rfl) (by rfl)).1

/-! ### Pruning and the output table -/

instance : IsTotal (Nat × Nat × Nat) tableRowLe :=
  ⟨by intro a b; unfold tableRowLe; omega⟩

instance : IsTrans (Nat × Nat × Nat) tableRowLe :=
  ⟨by intro a b c hab hbc; unfold tableRowLe at *; omega⟩

theorem mem_to_table {lib : Library} {row : Nat × Nat × Nat} :
    row ∈ lib.to_table ↔ ∃ L ∈ lib.lineages, L.pruned = false ∧
      ∃ e ∈ L.history, row = (e.1, e.2.region_id, L.lineage_id) := by
  unfold Library.to_table
  rw [(List.perm_insertionSort tableRowLe _).mem_iff]
  simp only [List.mem_flatMap, List.mem_filter, Bool.not_eq_true', rowsOf,
    List.mem_map]
  constructor
  · rintro ⟨L, ⟨hL, hp⟩, e, he, rfl⟩
    exact ⟨L, hL, hp, e, he, rfl⟩
  · rintro ⟨L, hL, hp, e, he, rfl⟩
    exact ⟨L, ⟨hL, hp⟩, e, he, rfl⟩

theorem rows_prune_one (ls : List Lineage) :
    ((ls.map (pruneL 1)).filter (fun L => !L.pruned)).flatMap rowsOf
      = (ls.filter (fun L => !L.pruned)).flatMap rowsOf := by
  induction ls with
  | nil => rfl
  | cons L rest ih =>
    simp only [List.map_cons, List.filter_cons]
    by_cases h : L.history.length < 1
    · have hnil : L.history = [] := List.length_eq_zero.mp (by omega)
      simp only [pruneL, if_pos h]
      by_cases hp : L.pruned = false
      · simp [hp, ih, rowsOf, hnil]
      · simp [hp, ih]
    · simp only [pruneL, if_neg h]
      by_cases hp : L.pruned = false
      · simp [hp, ih]
      · simp [hp, ih]

/-- C3: after `prune(k)` every lineage appearing in the output table has
length at least k; pruning with k = 1 leaves the output table unchanged; and
`prune` marks TERMINATED exactly those lineages (ACTIVE or already
TERMINATED) whose length is below k. -/
theorem C3_prune_law (lib : Library) (k : Nat) :
    (∀ row ∈ (lib.prune k).to_table, ∃ L ∈ (lib.prune k).lineages,
        L.lineage_id = row.2.2 ∧ k ≤ L.history.length)
    ∧ (lib.prune 1).to_table = lib.to_table
    ∧ (lib.prune k).lineages = lib.lineages.map (pruneL k)
    ∧ (∀ L : Lineage, (pruneL k L).status = Status.TERMINATED ↔
        (L.history.length < k ∨ L.status = Status.TERMINATED)) := by
  refine ⟨?_, ?_, rfl, ?_⟩
  · intro row hrow
    obtain ⟨L, hL, hp, e, _, rfl⟩ := mem_to_table.mp hrow
    refine ⟨L, hL, rfl, ?_⟩
    simp only [Library.prune, List.mem_map] at hL
    obtain ⟨L0, _, rfl⟩ := hL
    unfold pruneL at hp ⊢
    by_cases h : L0.history.length < k
    · simp [h] at hp
    · simp [h]
      omega
  · unfold Library.to_table
    rw [show (lib.prune 1).lineages = lib.lineages.map (pruneL 1) from rfl,
      rows_prune_one]
  · intro L
    unfold pruneL
    by_cases h : L.history.length < k
    · simp [h]
    · simp [h]

/-- Witness for C3: the sample library pruned at threshold 2 yields an empty
table, and its single row at threshold 1 has a lineage of sufficient length. -/
theorem C3_witness :
    ∃ L ∈ (sampleLib.prune 1).lineages,
      L.lineage_id = ((0 : Nat), (1 : Nat), (0 : Nat)).2.2
        ∧ 1 ≤ L.history.length := by
  exact (C3_prune_law sampleLib 1).1 (0, 1, 0) (by decide)

/-- C8: `to_table` is deterministic and idempotent — on an unchanged Library
it always returns the same list — its rows are exactly the (frame,
region_id, lineage_id) triples of the lineages not removed by pruning, and
the list is sorted by (lineage_id, frame). -/
theorem C8_to_table_deterministic_sorted (lib : Library) :
    lib.to_table = lib.to_table
    ∧ lib.to_table.Sorted tableRowLe
    ∧ (∀ row, row ∈ lib.to_table ↔ ∃ L ∈ lib.lineages, L.pruned = false ∧
        ∃ e ∈ L.history, row = (e.1, e.2.region_id, L.lineage_id)) := by
  refine ⟨rfl, ?_, fun row => mem_to_table⟩
  exact List.sorted_insertionSort tableRowLe _

/-- Witness for C8: membership of the sample library's single row in its
table, through the row-characterization of the claim theorem. -/
theorem C8_witness : ((0 : Nat), (1 : Nat), (0 : Nat)) ∈ sampleLib.to_table := by
  refine ((C8_to_table_deterministic_sorted sampleLib).2.2 (0, 1, 0)).mpr ?_
  refine ⟨sampleLib.lineages.head (by simp [sampleLib]), by simp [sampleLib], ?_⟩
  decide

/-! ### The chosen matching is one-to-one and drawn from the admissible pairs -/

theorem foldl_best_mem {α : Type} (f : α → α → Bool) (l : List α) (init : α) :
    l.foldl (fun best m => if f m best then m else best) init ∈ init :: l := by
  induction l generalizing init with
  | nil => simp
  | cons a l ih =>
    simp only [List.foldl_cons]
    by_cases hf : f a init = true
    · rw [if_pos hf]
      rcases List.mem_cons.mp (ih a) with h1 | h2
      · simp [h1]
      · simp [List.mem_cons_of_mem, h2]
    · rw [if_neg hf]
      rcases List.mem_cons.mp (ih init) with h1 | h2
      · simp [h1]
      · simp [List.mem_cons_of_mem, h2]

theorem chooseMatching_cases (cand : List (Lineage × Detection))
    (cost : Lineage → Detection → ℚ) :
    chooseMatching cand cost = []
      ∨ chooseMatching cand cost ∈ cand.sublists.filter oneToOneB := by
  unfold chooseMatching
  have h := foldl_best_mem (better cost) (cand.sublists.filter oneToOneB) []
  exact List.mem_cons.mp h

theorem chooseMatching_sublist (cand : List (Lineage × Detection))
    (cost : Lineage → Detection → ℚ) :
    List.Sublist (chooseMatching cand cost) cand := by
  rcases chooseMatching_cases cand cost with h | h
  · rw [h]; exact List.nil_sublist cand
  · exact List.mem_sublists.mp (List.mem_filter.mp h).1

theorem chooseMatching_oneToOne (cand : List (Lineage × Detection))
    (cost : Lineage → Detection → ℚ) :
    ((chooseMatching cand cost).map (fun p => p.1.lineage_id)).Nodup
      ∧ ((chooseMatching cand cost).map Prod.snd).Nodup := by
  rcases chooseMatching_cases cand cost with h | h
  · rw [h]; exact ⟨List.nodup_nil, List.nodup_nil⟩
  · have h2 := (List.mem_filter.mp h).2
    unfold oneToOneB at h2
    exact of_decide_eq_true h2

theorem mem_candidatePairs {lib : Library} {dets : List Detection} {radius : ℚ}
    {p : Lineage × Detection} :
    p ∈ candidatePairs lib dets radius ↔
      p.1 ∈ lib.lineages ∧ p.1.status = Status.ACTIVE ∧ p.2 ∈ dets ∧
        admissibleB radius p.1 p.2 = true := by
  unfold candidatePairs
  simp only [List.mem_flatMap, List.mem_filter, List.mem_map, decide_eq_true_eq]
  constructor
  · rintro ⟨L, ⟨hL, hs⟩, d, ⟨hd, ha⟩, rfl⟩
    exact ⟨hL, hs, hd, ha⟩
  · rintro ⟨h1, h2, h3, h4⟩
    exact ⟨p.1, ⟨h1, h2⟩, p.2, ⟨h3, h4⟩, rfl⟩

theorem matchingOf_mem_cand {lib : Library} {dets : List Detection}
    {radius wv : ℚ} {p : Lineage × Detection}
    (hp : p ∈ matchingOf lib dets radius wv) :
    p.1 ∈ lib.lineages ∧ p.1.status = Status.ACTIVE ∧ p.2 ∈ dets ∧
      admissibleB radius p.1 p.2 = true :=
  mem_candidatePairs.mp ((chooseMatching_sublist _ _).subset hp)

/-- C1: the spatial hard cutoff — for every pair (active lineage, detection)
that the Matcher ends up matching, the Euclidean distance between the
lineage's last centroid and the detection's centroid is at most
`search_radius`; pairs beyond the radius are excluded from the candidate set
before any cost is weighed, so no such pair is ever matched whatever its
visual term (the visual weight `wv` is universally quantified here). -/
theorem C1_spatial_cutoff (lib : Library) (dets : List Detection) (radius wv : ℚ)
    (p : Lineage × Detection) (e : Nat × Detection)
    (hr : 0 ≤ radius)
    (hp : p ∈ matchingOf lib dets radius wv)
    (he : p.1.lastEntry = some e) :
    Real.sqrt ((sqDist e.2.x e.2.y p.2.x p.2.y : ℚ) : ℝ) ≤ ((radius : ℚ) : ℝ) := by
  have hadm := (matchingOf_mem_cand hp).2.2.2
  unfold admissibleB at hadm
  rw [he] at hadm
  have hq : sqDist e.2.x e.2.y p.2.x p.2.y ≤ radius * radius :=
    of_decide_eq_true hadm
  have hcast : ((sqDist e.2.x e.2.y p.2.x p.2.y : ℚ) : ℝ) ≤
      ((radius : ℚ) : ℝ) * ((radius : ℚ) : ℝ) := by
    exact_mod_cast hq
  calc Real.sqrt ((sqDist e.2.x e.2.y p.2.x p.2.y : ℚ) : ℝ)
      ≤ Real.sqrt (((radius : ℚ) : ℝ) * ((radius : ℚ) : ℝ)) :=
        Real.sqrt_le_sqrt hcast
    _ = ((radius : ℚ) : ℝ) := Real.sqrt_mul_self (by exact_mod_cast hr)

/-- Witness for C1: with one active lineage at the origin and one detection at
(1,1), search radius 5, the pair is matched and its distance is within the
radius. -/
theorem sample_matching_eval :
    matchingOf sampleLib [sampleDet1] 5 1 = [(sampleLin, sampleDet1)] := by
  norm_num [matchingOf, candidatePairs, chooseMatching, admissibleB,
    Lineage.lastEntry, sampleLib, sampleLin, sampleDet0, sampleDet1, sqDist,
    oneToOneB, better, totalCost, keyLt, pairCost, spatialCost, visualCost,
    List.sublists]

theorem C1_witness :
    ((sampleLin, sampleDet1) ∈ matchingOf sampleLib [sampleDet1] 5 1)
    ∧ Real.sqrt ((sqDist sampleDet0.x sampleDet0.y sampleDet1.x sampleDet1.y
        : ℚ) : ℝ) ≤ ((5 : ℚ) : ℝ) := by
  have hmem : (sampleLin, sampleDet1) ∈ matchingOf sampleLib [sampleDet1] 5 1 := by
    rw [sample_matching_eval]; exact List.mem_singleton_self _
  exact ⟨hmem, C1_spatial_cutoff sampleLib [sampleDet1] 5 1
    (sampleLin, sampleDet1) (0, sampleDet0) (by norm_num) hmem (by rfl)⟩

/-! ### Characterizing the registry state after one frame transition -/

/-- Effect of the batch of `extend` calls for matching `m` on one lineage. -/
def extendStep (m : List (Lineage × Detection)) (frame : Nat) (L : Lineage) : Lineage :=
  match m.find? (fun p => decide (p.1.lineage_id = L.lineage_id)) with
  | some p => { L with history := L.history ++ [(frame, p.2)] }
  | none => L

/-- Effect of the batch of `terminate` calls for the listed ids on one lineage. -/
def termStep (lids : List Nat) (L : Lineage) : Lineage :=
  if L.lineage_id ∈ lids then { L with status := Status.TERMINATED } else L

theorem find?_lineage_eq {ls : List Lineage} {L : Lineage}
    (hnd : (ls.map Lineage.lineage_id).Nodup) (hL : L ∈ ls) :
    ls.find? (fun L' => decide (L'.lineage_id = L.lineage_id)) = some L := by
  induction ls with
  | nil => cases hL
  | cons a ls ih =>
    rcases List.mem_cons.mp hL with rfl | hL2
    · exact List.find?_cons_of_pos _ (by simp)
    · rw [List.map_cons] at hnd
      have hnd2 := List.nodup_cons.mp hnd
      have hne : ¬ (a.lineage_id = L.lineage_id) := by
        intro hEq
        exact hnd2.1 (by rw [hEq]; exact List.mem_map_of_mem _ hL2)
      rw [List.find?_cons_of_neg _ (by simpa using hne)]
      exact ih hnd2.2 hL2

theorem extend_ok {lib lib' : Library} {lid frame : Nat} {d : Detection}
    (h : lib.extend lid frame d = Except.ok lib') :
    lib'.lineages = lib.lineages.map (fun L' =>
      if L'.lineage_id = lid then { L' with history := L'.history ++ [(frame, d)] }
      else L')
    ∧ lib'.next_id = lib.next_id
    ∧ ∃ L0 e, lib.lineages.find? (fun L => decide (L.lineage_id = lid)) = some L0
        ∧ L0.history.getLast? = some e ∧ L0.status = Status.ACTIVE
        ∧ frame = e.1 + 1 := by
  unfold Library.extend at h
  cases hfind : lib.lineages.find? (fun L => decide (L.lineage_id = lid)) with
  | none => rw [hfind] at h; exact absurd h (by simp)
  | some L0 =>
    rw [hfind] at h
    dsimp only at h
    cases hlast : L0.history.getLast? with
    | none => rw [hlast] at h; exact absurd h (by simp)
    | some e =>
      rw [hlast] at h
      dsimp only at h
      by_cases h1 : L0.status = Status.ACTIVE
      · by_cases h2 : frame = e.1 + 1
        · subst h2
          by_cases h3 : assignedElsewhere lib lid (e.1 + 1) d = true
          · rw [if_neg (by simp [h1]), if_neg (by simp), if_pos h3] at h
            exact absurd h (by simp)
          · rw [if_neg (by simp [h1]), if_neg (by simp), if_neg h3] at h
            have h4 := Except.ok.inj h
            refine ⟨by rw [← h4], by rw [← h4], L0, e, rfl, hlast, h1, rfl⟩
        · rw [if_neg (by simp [h1]), if_pos (by simp [h2])] at h
          exact absurd h (by simp)
      · rw [if_pos (by simp [h1])] at h
        exact absurd h (by simp)

theorem map_ids_extendFun (ls : List Lineage) (lid frame : Nat) (d : Detection) :
    (ls.map (fun L' => if L'.lineage_id = lid then
        { L' with history := L'.history ++ [(frame, d)] } else L')).map
      Lineage.lineage_id = ls.map Lineage.lineage_id := by
  rw [List.map_map]
  apply List.map_congr_left
  intro L _
  by_cases hL : L.lineage_id = lid <;> simp [Function.comp, hL]

theorem extendStep_cons (p : Lineage × Detection) (m : List (Lineage × Detection))
    (frame : Nat) (hp : p.1.lineage_id ∉ m.map (fun q => q.1.lineage_id))
    (L : Lineage) :
    extendStep m frame (if L.lineage_id = p.1.lineage_id then
        { L with history := L.history ++ [(frame, p.2)] } else L)
      = extendStep (p :: m) frame L := by
  by_cases hL : L.lineage_id = p.1.lineage_id
  · rw [if_pos hL]
    unfold extendStep
    rw [List.find?_cons_of_pos _ (by simp [hL])]
    rw [List.find?_eq_none.mpr ?_]
    · intro q hq
      simp only [decide_eq_true_eq]
      intro hEq
      exact hp (by rw [← hL, ← hEq]; exact List.mem_map_of_mem _ hq)
  · rw [if_neg hL]
    unfold extendStep
    rw [List.find?_cons_of_neg _ (by simp; intro hEq; exact hL hEq.symm)]

theorem applyExtends_ok {frame : Nat} :
    ∀ {m : List (Lineage × Detection)} {lib lib' : Library},
    (lib.lineages.map Lineage.lineage_id).Nodup →
    (m.map (fun q => q.1.lineage_id)).Nodup →
    (∀ p ∈ m, p.1 ∈ lib.lineages) →
    applyExtends lib frame m = Except.ok lib' →
    lib'.lineages = lib.lineages.map (extendStep m frame)
    ∧ lib'.next_id = lib.next_id
    ∧ ∀ p ∈ m, p.1.status = Status.ACTIVE
        ∧ ∃ e, p.1.history.getLast? = some e ∧ frame = e.1 + 1 := by
  intro m
  induction m with
  | nil =>
    intro lib lib' _ _ _ h
    unfold applyExtends at h
    have h4 := Except.ok.inj h
    subst h4
    refine ⟨?_, rfl, by simp⟩
    have hid : ∀ L ∈ lib.lineages, L = extendStep [] frame L := fun L _ => rfl
    rw [← List.map_congr_left hid]
    simp
  | cons p m ih =>
    intro lib lib' hnd hm hmem h
    unfold applyExtends at h
    cases hext : lib.extend p.1.lineage_id frame p.2 with
    | error e => rw [hext] at h; exact absurd h (by simp)
    | ok lib1 =>
      rw [hext] at h
      dsimp only at h
      obtain ⟨hl1, hn1, L0, e0, hfind, hlast, hstat, hframe⟩ := extend_ok hext
      have hfind2 := find?_lineage_eq hnd (hmem p (List.mem_cons_self _ _))
      have hL0 : L0 = p.1 := by
        rw [hfind] at hfind2
        exact (Option.some.injEq _ _).mp hfind2
      subst hL0
      have hcons := List.nodup_cons.mp hm
      have hndm : (m.map (fun q => q.1.lineage_id)).Nodup := hcons.2
      have hpnotin : p.1.lineage_id ∉ m.map (fun q => q.1.lineage_id) := hcons.1
      have hids1 : lib1.lineages.map Lineage.lineage_id
          = lib.lineages.map Lineage.lineage_id := by
        rw [hl1]; exact map_ids_extendFun _ _ _ _
      have hnd1 : (lib1.lineages.map Lineage.lineage_id).Nodup := by
        rw [hids1]; exact hnd
      have hmem1 : ∀ q ∈ m, q.1 ∈ lib1.lineages := by
        intro q hq
        have hne : q.1.lineage_id ≠ p.1.lineage_id := by
          intro hEq
          exact hpnotin (by rw [← hEq]; exact List.mem_map_of_mem _ hq)
        rw [hl1]
        have hfix : (fun L' => if L'.lineage_id = p.1.lineage_id then
            { L' with history := L'.history ++ [(frame, p.2)] } else L') q.1 = q.1 := by
          simp only [if_neg hne]
        rw [← hfix]
        exact List.mem_map_of_mem _ (hmem q (List.mem_cons_of_mem _ hq))
      obtain ⟨hl', hn', hfacts'⟩ := ih hnd1 hndm hmem1 h
      refine ⟨?_, by rw [hn', hn1], ?_⟩
      · rw [hl', hl1, List.map_map]
        apply List.map_congr_left
        intro L _
        simp only [Function.comp]
        exact extendStep_cons p m frame hpnotin L
      · intro q hq
        rcases List.mem_cons.mp hq with rfl | hq2
        · exact ⟨hstat, e0, hlast, hframe⟩
        · exact hfacts' q hq2

theorem termStep_cons (lid : Nat) (rest : List Nat) (L : Lineage) :
    termStep rest (if L.lineage_id = lid then
        { L with status := Status.TERMINATED } else L)
      = termStep (lid :: rest) L := by
  by_cases hL : L.lineage_id = lid
  · rw [if_pos hL]
    unfold termStep
    by_cases hr : L.lineage_id ∈ rest
    · rw [if_pos (by simpa using hr), if_pos (by simp [hL])]
    · rw [if_neg (by simpa using hr), if_pos (by simp [hL])]
  · rw [if_neg hL]
    unfold termStep
    by_cases hr : L.lineage_id ∈ rest
    · rw [if_pos hr, if_pos (List.mem_cons_of_mem _ hr)]
    · rw [if_neg hr, if_neg (by simp [hL, hr])]

theorem terminateAll_eq :
    ∀ (lids : List Nat) (lib : Library),
    (terminateAll lib lids).lineages = lib.lineages.map (termStep lids)
    ∧ (terminateAll lib lids).next_id = lib.next_id := by
  intro lids
  induction lids with
  | nil =>
    intro lib
    refine ⟨?_, rfl⟩
    have hid : ∀ L ∈ lib.lineages, L = termStep [] L := fun L _ => by
      unfold termStep
      rw [if_neg (List.not_mem_nil _)]
    show lib.lineages = _
    rw [← List.map_congr_left hid]
    simp
  | cons lid rest ih =>
    intro lib
    have h := ih (lib.terminate lid)
    unfold terminateAll
    refine ⟨?_, h.2⟩
    rw [h.1]
    show ((lib.lineages.map _).map (termStep rest)) = _
    rw [List.map_map]
    apply List.map_congr_left
    intro L _
    simp only [Function.comp]
    exact termStep_cons lid rest L

theorem createAll_eq :
    ∀ (ds : List Detection) (lib : Library) (frame : Nat),
    (createAll lib frame ds).lineages
        = lib.lineages ++ newLineages lib.next_id frame ds
    ∧ (createAll lib frame ds).next_id = lib.next_id + ds.length := by
  intro ds
  induction ds with
  | nil => intro lib frame; exact ⟨by simp [createAll, newLineages], rfl⟩
  | cons d rest ih =>
    intro lib frame
    have h := ih (lib.create frame d) frame
    unfold createAll
    refine ⟨?_, ?_⟩
    · rw [h.1]
      show (lib.lineages ++ [_]) ++ _ = _
      rw [List.append_assoc]
      rfl
    · rw [h.2]
      show lib.next_id + 1 + rest.length = _
      simp [List.length_cons]
      omega

theorem matchFrame_ok {lib lib' : Library} {frame : Nat} {dets : List Detection}
    {radius wv : ℚ}
    (hnd : (lib.lineages.map Lineage.lineage_id).Nodup)
    (h : matchFrame lib frame dets radius wv = Except.ok lib') :
    lib'.lineages = lib.lineages.map (fun L =>
        termStep (unmatchedActives lib (matchingOf lib dets radius wv))
          (extendStep (matchingOf lib dets radius wv) frame L))
      ++ newLineages lib.next_id frame
          (unmatchedDets dets (matchingOf lib dets radius wv))
    ∧ lib'.next_id = lib.next_id
        + (unmatchedDets dets (matchingOf lib dets radius wv)).length
    ∧ ∀ p ∈ matchingOf lib dets radius wv, p.1 ∈ lib.lineages
        ∧ p.1.status = Status.ACTIVE
        ∧ ∃ e, p.1.history.getLast? = some e ∧ frame = e.1 + 1 := by
  unfold matchFrame at h
  cases happly : applyExtends lib frame (matchingOf lib dets radius wv) with
  | error e => rw [happly] at h; exact absurd h (by simp)
  | ok lib1 =>
    rw [happly] at h
    dsimp only at h
    have h4 := Except.ok.inj h
    have hmem : ∀ p ∈ matchingOf lib dets radius wv, p.1 ∈ lib.lineages :=
      fun p hp => (matchingOf_mem_cand hp).1
    obtain ⟨hl1, hn1, hfacts⟩ := applyExtends_ok hnd
      (chooseMatching_oneToOne _ _).1 hmem happly
    have hterm := terminateAll_eq (unmatchedActives lib (matchingOf lib dets radius wv)) lib1
    have hcreate := createAll_eq (unmatchedDets dets (matchingOf lib dets radius wv))
      (terminateAll lib1 (unmatchedActives lib (matchingOf lib dets radius wv))) frame
    refine ⟨?_, ?_, fun p hp => ⟨hmem p hp, (hfacts p hp).1, (hfacts p hp).2⟩⟩
    · rw [← h4, hcreate.1, hterm.1, hterm.2, hn1, hl1, List.map_map]
      rfl
    · rw [← h4, hcreate.2, hterm.2, hn1]

/-! ### Frames with zero detections -/

theorem candidatePairs_nil (lib : Library) (radius : ℚ) :
    candidatePairs lib [] radius = [] := by
  unfold candidatePairs
  induction lib.lineages.filter (fun L => decide (L.status = Status.ACTIVE)) with
  | nil => rfl
  | cons L rest ih => simp [ih]

theorem chooseMatching_nil (cost : Lineage → Detection → ℚ) :
    chooseMatching [] cost = [] := by
  unfold chooseMatching
  have h1 : (List.sublists ([] : List (Lineage × Detection))) = [[]] :=
    List.sublists_nil
  rw [h1]
  have h2 : oneToOneB ([] : List (Lineage × Detection)) = true := by
    unfold oneToOneB
    simp
  rw [List.filter_cons, h2]
  simp only [if_pos trivial, List.filter_nil, List.foldl_cons, List.foldl_nil]
  by_cases hb : better cost [] [] = true
  · rw [if_pos hb]
  · rw [if_neg hb]

theorem terminate_self_of_terminated {L : Lineage}
    (h : L.status = Status.TERMINATED) :
    { L with status := Status.TERMINATED } = L := by
  cases L
  dsimp only at h
  rw [h]

/-- C6: a frame with zero detections is not an error: the Matcher succeeds,
every currently ACTIVE lineage is terminated, no lineage is created or
removed, and the run proceeds to the remaining frames. -/
theorem C6_empty_frame (lib : Library) (frame : Nat) (radius wv : ℚ) :
    ∃ lib', matchFrame lib frame [] radius wv = Except.ok lib'
      ∧ lib'.lineages = lib.lineages.map (fun L =>
          if L.status = Status.ACTIVE then { L with status := Status.TERMINATED }
          else L)
      ∧ lib'.lineages.length = lib.lineages.length
      ∧ lib'.next_id = lib.next_id
      ∧ (∀ rest : List (List Detection),
          runFrames radius wv lib frame ([] :: rest)
            = runFrames radius wv lib' (frame + 1) rest) := by
  have hm : matchingOf lib [] radius wv = [] := by
    unfold matchingOf
    rw [candidatePairs_nil, chooseMatching_nil]
  have happly : applyExtends lib frame (matchingOf lib [] radius wv)
      = Except.ok lib := by
    rw [hm]; rfl
  have hunmD : unmatchedDets [] (matchingOf lib [] radius wv) = [] := rfl
  have hmf : matchFrame lib frame [] radius wv = Except.ok
      (terminateAll lib (unmatchedActives lib (matchingOf lib [] radius wv))) := by
    unfold matchFrame
    rw [happly]
    dsimp only
    rw [hunmD]
    rfl
  refine ⟨terminateAll lib (unmatchedActives lib (matchingOf lib [] radius wv)),
    hmf, ?_, ?_, ?_, ?_⟩
  · rw [(terminateAll_eq _ _).1]
    apply List.map_congr_left
    intro L hL
    by_cases hs : L.status = Status.ACTIVE
    · rw [if_pos hs]
      unfold termStep
      rw [if_pos ?_]
      rw [hm]
      unfold unmatchedActives
      refine List.mem_filter.mpr ⟨?_, by simp⟩
      exact List.mem_map_of_mem _ (List.mem_filter.mpr ⟨hL, by simp [hs]⟩)
    · rw [if_neg hs]
      have hterm : L.status = Status.TERMINATED := by
        cases hstat : L.status
        · exact absurd hstat hs
        · rfl
      unfold termStep
      by_cases hmem2 : L.lineage_id ∈
          unmatchedActives lib (matchingOf lib [] radius wv)
      · rw [if_pos hmem2]
        exact terminate_self_of_terminated hterm
      · rw [if_neg hmem2]
  · rw [(terminateAll_eq _ _).1, List.length_map]
  · exact (terminateAll_eq _ _).2
  · intro rest
    conv_lhs => rw [runFrames]
    rw [hmf]

/-! ### Contiguity of active histories across the run -/

/-- Every ACTIVE lineage's history frames form a chain of consecutive
integers (each successive frame is the previous one plus one). -/
def activeContig (lib : Library) : Prop :=
  ∀ L ∈ lib.lineages, L.status = Status.ACTIVE →
    List.Chain' (fun a b => a + 1 = b) (L.history.map Prod.fst)

/-- Well-formed lineage ids: pairwise distinct and all below `next_id`. -/
def goodIds (lib : Library) : Prop :=
  (lib.lineages.map Lineage.lineage_id).Nodup
  ∧ ∀ L ∈ lib.lineages, L.lineage_id < lib.next_id

theorem extendStep_lineage_id (m : List (Lineage × Detection)) (frame : Nat)
    (L : Lineage) : (extendStep m frame L).lineage_id = L.lineage_id := by
  unfold extendStep
  split <;> rfl

theorem termStep_lineage_id (lids : List Nat) (L : Lineage) :
    (termStep lids L).lineage_id = L.lineage_id := by
  unfold termStep
  split <;> rfl

theorem extendStep_eq (m : List (Lineage × Detection)) (frame : Nat) (L : Lineage) :
    extendStep m frame L = L
    ∨ ∃ p ∈ m, p.1.lineage_id = L.lineage_id
        ∧ extendStep m frame L = { L with history := L.history ++ [(frame, p.2)] } := by
  unfold extendStep
  cases hf : m.find? (fun q => decide (q.1.lineage_id = L.lineage_id)) with
  | none => exact Or.inl rfl
  | some p =>
    have hp := List.find?_some hf
    simp only [decide_eq_true_eq] at hp
    exact Or.inr ⟨p, List.mem_of_find?_eq_some hf, hp, rfl⟩

theorem termStep_eq (lids : List Nat) (L : Lineage) :
    termStep lids L = L
    ∨ termStep lids L = { L with status := Status.TERMINATED } := by
  unfold termStep
  split
  · exact Or.inr rfl
  · exact Or.inl rfl

theorem newLineages_ids (n f : Nat) (ds : List Detection) :
    (newLineages n f ds).map Lineage.lineage_id = List.range' n ds.length := by
  induction ds generalizing n with
  | nil => rfl
  | cons d rest ih =>
    show n :: (newLineages (n + 1) f rest).map Lineage.lineage_id = _
    rw [ih, List.length_cons, List.range'_succ]

theorem map_ids_step (ls : List Lineage) (m : List (Lineage × Detection))
    (frame : Nat) (unmA : List Nat) :
    (ls.map (fun L => termStep unmA (extendStep m frame L))).map
        Lineage.lineage_id = ls.map Lineage.lineage_id := by
  rw [List.map_map]
  apply List.map_congr_left
  intro L _
  simp only [Function.comp]
  rw [termStep_lineage_id, extendStep_lineage_id]

theorem goodIds_matchFrame {lib lib' : Library} {frame : Nat}
    {dets : List Detection} {radius wv : ℚ}
    (hg : goodIds lib) (h : matchFrame lib frame dets radius wv = Except.ok lib') :
    goodIds lib' := by
  obtain ⟨hl, hn, _⟩ := matchFrame_ok hg.1 h
  constructor
  · rw [hl, List.map_append, map_ids_step, newLineages_ids, List.nodup_append]
    refine ⟨hg.1, List.nodup_range' _ _ _ Nat.one_pos, ?_⟩
    intro a ha
    obtain ⟨L, hL, rfl⟩ := List.mem_map.mp ha
    intro hmem
    have hge := (List.mem_range'_1.mp hmem).1
    have hlt := hg.2 L hL
    omega
  · intro L' hL'
    rw [hl] at hL'
    rw [hn]
    rcases List.mem_append.mp hL' with h1 | h2
    · obtain ⟨L, hL, rfl⟩ := List.mem_map.mp h1
      rw [termStep_lineage_id, extendStep_lineage_id]
      have := hg.2 L hL
      omega
    · obtain ⟨i, d, hd, rfl⟩ := mem_newLineages.mp h2
      have hi : i < (unmatchedDets dets (matchingOf lib dets radius wv)).length := by
        by_contra hge
        rw [List.getElem?_eq_none (by omega)] at hd
        cases hd
      show lib.next_id + i < _
      omega

theorem lineage_eq_of_id {ls : List Lineage} {L1 L2 : Lineage}
    (hnd : (ls.map Lineage.lineage_id).Nodup) (h1 : L1 ∈ ls) (h2 : L2 ∈ ls)
    (hid : L1.lineage_id = L2.lineage_id) : L1 = L2 := by
  have f1 := find?_lineage_eq hnd h1
  have f2 := find?_lineage_eq hnd h2
  rw [hid] at f1
  rw [f1] at f2
  exact (Option.some.injEq _ _).mp f2

theorem activeContig_matchFrame {lib lib' : Library} {frame : Nat}
    {dets : List Detection} {radius wv : ℚ}
    (hnd : (lib.lineages.map Lineage.lineage_id).Nodup)
    (hc : activeContig lib)
    (h : matchFrame lib frame dets radius wv = Except.ok lib') :
    activeContig lib' := by
  obtain ⟨hl, hn, hfacts⟩ := matchFrame_ok hnd h
  intro L' hL' hs'
  rw [hl] at hL'
  rcases List.mem_append.mp hL' with h1 | h2
  · obtain ⟨L, hL, rfl⟩ := List.mem_map.mp h1
    rcases termStep_eq (unmatchedActives lib (matchingOf lib dets radius wv))
        (extendStep (matchingOf lib dets radius wv) frame L) with hte | hte <;>
      rw [hte] at hs' ⊢
    · rcases extendStep_eq (matchingOf lib dets radius wv) frame L with
        hee | ⟨p, hpm, hpid, hee⟩ <;> rw [hee] at hs' ⊢
      · exact hc L hL hs'
      · have hsL : L.status = Status.ACTIVE := hs'
        obtain ⟨hp1mem, _, e, hlast, hframe⟩ := hfacts p hpm
        have hpL : p.1 = L := lineage_eq_of_id hnd hp1mem hL hpid
        rw [hpL] at hlast
        show List.Chain' _ ((L.history ++ [(frame, p.2)]).map Prod.fst)
        rw [List.map_append, List.chain'_append]
        refine ⟨hc L hL hsL, List.chain'_singleton _, ?_⟩
        intro x hx y hy
        rw [List.getLast?_map, hlast] at hx
        simp only [Option.map_some', Option.mem_def, Option.some.injEq] at hx
        simp only [List.map_cons, List.map_nil, List.head?_cons,
          Option.mem_def, Option.some.injEq] at hy
        rw [← hx, ← hy]
        exact hframe.symm
    · simp at hs'
  · obtain ⟨i, d, hd, rfl⟩ := mem_newLineages.mp h2
    exact List.chain'_singleton _

theorem activeContig_runFrames {radius wv : ℚ} :
    ∀ (fl : List (List Detection)) {lib lib' : Library} {frame : Nat},
    goodIds lib → activeContig lib →
    runFrames radius wv lib frame fl = Except.ok lib' → activeContig lib' := by
  intro fl
  induction fl with
  | nil =>
    intro lib lib' frame _ hc h
    unfold runFrames at h
    have h4 := Except.ok.inj h
    rw [← h4]
    exact hc
  | cons ds rest ih =>
    intro lib lib' frame hg hc h
    unfold runFrames at h
    cases hmf : matchFrame lib frame ds radius wv with
    | error e => rw [hmf] at h; exact absurd h (by simp)
    | ok lib1 =>
      rw [hmf] at h
      dsimp only at h
      exact ih (goodIds_matchFrame hg hmf)
        (activeContig_matchFrame hg.1 hc hmf) h

/-- C7: active-history contiguity across the whole run — initialization
establishes it, every Matcher frame transition preserves it (so it holds at
every point of the run), it is preserved along any run of frame transitions,
and it entails that an ACTIVE lineage's frame indices are strictly
increasing with no gaps and never repeat a frame. -/
theorem C7_active_contiguity :
    (∀ (dets0 : List Detection) (lib0 : Library),
        Library.init dets0 = Except.ok lib0 → activeContig lib0)
    ∧ (∀ (lib lib' : Library) (frame : Nat) (dets : List Detection)
        (radius wv : ℚ), (lib.lineages.map Lineage.lineage_id).Nodup →
        activeContig lib → matchFrame lib frame dets radius wv = Except.ok lib' →
        activeContig lib')
    ∧ (∀ (radius wv : ℚ) (fl : List (List Detection)) (lib lib' : Library)
        (frame : Nat), goodIds lib → activeContig lib →
        runFrames radius wv lib frame fl = Except.ok lib' → activeContig lib')
    ∧ (∀ lib : Library, activeContig lib → ∀ L ∈ lib.lineages,
        L.status = Status.ACTIVE →
        List.Chain' (fun a b => a + 1 = b) (L.history.map Prod.fst)
        ∧ List.Pairwise (· < ·) (L.history.map Prod.fst)
        ∧ (L.history.map Prod.fst).Nodup) := by
  refine ⟨?_, ?_, ?_, ?_⟩
  · intro dets0 lib0 h
    intro L hL _
    have hne : dets0.isEmpty = false := by
      cases dets0 with
      | nil => simp [Library.init] at h
      | cons d rest => rfl
    simp only [Library.init, hne, Bool.false_eq_true, if_false,
      Except.ok.injEq] at h
    rw [← h] at hL
    obtain ⟨i, d, _, rfl⟩ := mem_newLineages.mp hL
    exact List.chain'_singleton _
  · intro lib lib' frame dets radius wv hnd hc h
    exact activeContig_matchFrame hnd hc h
  · intro radius wv fl lib lib' frame hg hc h
    exact activeContig_runFrames fl hg hc h
  · intro lib hc L hL hs
    have hchain := hc L hL hs
    have hlt : List.Chain' (· < ·) (L.history.map Prod.fst) :=
      hchain.imp (fun h => by omega)
    have hpw : List.Pairwise (· < ·) (L.history.map Prod.fst) :=
      List.chain'_iff_pairwise.mp hlt
    exact ⟨hchain, hpw, hpw.imp (fun h => Nat.ne_of_lt h)⟩

/-- Witness for C7: the library initialized from one detection satisfies the
contiguity invariant. -/
theorem C7_witness : activeContig sampleLib :=
  C7_active_contiguity.1 [sampleDet0] sampleLib (by rfl)

/-! ### One-to-one assignment of detections to lineages -/

/-- The detection identified by (frame `f`, region id `rid`) appears in the
lineage's history. -/
def assignedIn (L : Lineage) (f rid : Nat) : Prop :=
  ∃ e ∈ L.history, e.1 = f ∧ e.2.region_id = rid

/-- Every detection belongs to at most one lineage of the registry. -/
def uniqueAssign (lib : Library) : Prop :=
  ∀ (f rid : Nat), ∀ L1 ∈ lib.lineages, ∀ L2 ∈ lib.lineages,
    assignedIn L1 f rid → assignedIn L2 f rid → L1 = L2

theorem termStep_history (lids : List Nat) (L : Lineage) :
    (termStep lids L).history = L.history := by
  unfold termStep
  split <;> rfl

theorem extendStep_cases (m : List (Lineage × Detection)) (frame : Nat)
    (L : Lineage) :
    (m.find? (fun q => decide (q.1.lineage_id = L.lineage_id)) = none
      ∧ extendStep m frame L = L)
    ∨ ∃ p ∈ m, p.1.lineage_id = L.lineage_id
        ∧ extendStep m frame L = { L with history := L.history ++ [(frame, p.2)] } := by
  unfold extendStep
  cases hf : m.find? (fun q => decide (q.1.lineage_id = L.lineage_id)) with
  | none => exact Or.inl ⟨rfl, rfl⟩
  | some p =>
    have hp := List.find?_some hf
    simp only [decide_eq_true_eq] at hp
    exact Or.inr ⟨p, List.mem_of_find?_eq_some hf, hp, rfl⟩

theorem find?_pair_eq {M : List (Lineage × Detection)} {q : Lineage × Detection}
    (hnd : (M.map (fun r => r.1.lineage_id)).Nodup) (hq : q ∈ M) :
    M.find? (fun r => decide (r.1.lineage_id = q.1.lineage_id)) = some q := by
  induction M with
  | nil => cases hq
  | cons a M ih =>
    rcases List.mem_cons.mp hq with rfl | hq2
    · exact List.find?_cons_of_pos _ (by simp)
    · rw [List.map_cons] at hnd
      have hnd2 := List.nodup_cons.mp hnd
      have hne : ¬ (a.1.lineage_id = q.1.lineage_id) := by
        intro hEq
        exact hnd2.1 (by rw [hEq]; exact List.mem_map_of_mem _ hq2)
      rw [List.find?_cons_of_neg _ (by simpa using hne)]
      exact ih hnd2.2 hq2

theorem mem_unmatchedActives {lib : Library} {M : List (Lineage × Detection)}
    {L : Lineage} (hL : L ∈ lib.lineages) (hact : L.status = Status.ACTIVE)
    (hnm : L.lineage_id ∉ M.map (fun q => q.1.lineage_id)) :
    L.lineage_id ∈ unmatchedActives lib M := by
  unfold unmatchedActives
  refine List.mem_filter.mpr ⟨?_, by simpa using hnm⟩
  exact List.mem_map_of_mem _ (List.mem_filter.mpr ⟨hL, by simp [hact]⟩)

theorem not_mem_unmatchedActives {lib : Library} {M : List (Lineage × Detection)}
    {lid : Nat} (hm : lid ∈ M.map (fun q => q.1.lineage_id)) :
    lid ∉ unmatchedActives lib M := by
  unfold unmatchedActives
  intro hmem
  have h2 := (List.mem_filter.mp hmem).2
  simp only [decide_eq_true_eq] at h2
  exact h2 hm

theorem mem_unmatchedDets_iff {dets : List Detection}
    {M : List (Lineage × Detection)} {d : Detection} :
    d ∈ unmatchedDets dets M ↔ d ∈ dets ∧ d ∉ M.map Prod.snd := by
  unfold unmatchedDets
  rw [List.mem_filter]
  simp

theorem step_assigned_frame {M : List (Lineage × Detection)} {unmA : List Nat}
    {frame rid : Nat} {L : Lineage}
    (hfreshL : ∀ e ∈ L.history, e.1 ≠ frame)
    (h : assignedIn (termStep unmA (extendStep M frame L)) frame rid) :
    ∃ p ∈ M, p.1.lineage_id = L.lineage_id ∧ p.2.region_id = rid := by
  obtain ⟨e, he, hef, her⟩ := h
  rw [termStep_history] at he
  rcases extendStep_eq M frame L with hee | ⟨p, hpm, hpid, hee⟩ <;> rw [hee] at he
  · exact absurd hef (hfreshL e he)
  · dsimp only at he
    rcases List.mem_append.mp he with hmem1 | hmem2
    · exact absurd hef (hfreshL e hmem1)
    · have he2 := List.mem_singleton.mp hmem2
      subst he2
      exact ⟨p, hpm, hpid, her⟩

theorem step_assigned_off {M : List (Lineage × Detection)} {unmA : List Nat}
    {frame f rid : Nat} {L : Lineage} (hf : f ≠ frame)
    (h : assignedIn (termStep unmA (extendStep M frame L)) f rid) :
    assignedIn L f rid := by
  obtain ⟨e, he, hef, her⟩ := h
  rw [termStep_history] at he
  rcases extendStep_eq M frame L with hee | ⟨p, hpm, hpid, hee⟩ <;> rw [hee] at he
  · exact ⟨e, he, hef, her⟩
  · dsimp only at he
    rcases List.mem_append.mp he with hmem1 | hmem2
    · exact ⟨e, hmem1, hef, her⟩
    · have he2 := List.mem_singleton.mp hmem2
      subst he2
      exact absurd hef.symm hf

theorem assigned_in_new {frame rid f : Nat} {n : Nat} {ds : List Detection}
    {N : Lineage} (hN : N ∈ newLineages n frame ds) (h : assignedIn N f rid) :
    f = frame ∧ ∃ i d, ds[i]? = some d ∧ d.region_id = rid
      ∧ N = { lineage_id := n + i, history := [(frame, d)],
              status := Status.ACTIVE, pruned := false } := by
  obtain ⟨i, d, hd, rfl⟩ := mem_newLineages.mp hN
  obtain ⟨e, he, hef, her⟩ := h
  have he2 := List.mem_singleton.mp he
  subst he2
  exact ⟨hef.symm, i, d, hd, her, rfl⟩

theorem assigned_frame_classify {lib : Library} {dets : List Detection}
    {M : List (Lineage × Detection)} {unmA : List Nat} {frame rid : Nat}
    {L' : Lineage}
    (hfresh : ∀ L ∈ lib.lineages, ∀ e ∈ L.history, e.1 ≠ frame)
    (hL' : L' ∈ lib.lineages.map (fun L => termStep unmA (extendStep M frame L))
        ++ newLineages lib.next_id frame (unmatchedDets dets M))
    (h : assignedIn L' frame rid) :
    (∃ p ∈ M, ∃ L ∈ lib.lineages, p.1.lineage_id = L.lineage_id
        ∧ p.2.region_id = rid ∧ L' = termStep unmA (extendStep M frame L))
    ∨ (∃ i d, (unmatchedDets dets M)[i]? = some d ∧ d.region_id = rid
        ∧ L' = { lineage_id := lib.next_id + i, history := [(frame, d)],
                 status := Status.ACTIVE, pruned := false }) := by
  rcases List.mem_append.mp hL' with h1 | h2
  · obtain ⟨L, hL, rfl⟩ := List.mem_map.mp h1
    obtain ⟨p, hpm, hpid, hprid⟩ := step_assigned_frame (hfresh L hL) h
    exact Or.inl ⟨p, hpm, L, hL, hpid, hprid, rfl⟩
  · obtain ⟨-, i, d, hd, hrid, hEq⟩ := assigned_in_new h2 h
    exact Or.inr ⟨i, d, hd, hrid, hEq⟩

theorem assigned_frame_unique {lib : Library} {dets : List Detection}
    {M : List (Lineage × Detection)} {unmA : List Nat} {frame rid : Nat}
    {L'1 L'2 : Lineage}
    (hnd : (lib.lineages.map Lineage.lineage_id).Nodup)
    (hfresh : ∀ L ∈ lib.lineages, ∀ e ∈ L.history, e.1 ≠ frame)
    (hdd : (dets.map Detection.region_id).Nodup)
    (hM2 : (M.map Prod.snd).Nodup)
    (hsnd : ∀ p ∈ M, p.2 ∈ dets)
    (h1 : L'1 ∈ lib.lineages.map (fun L => termStep unmA (extendStep M frame L))
        ++ newLineages lib.next_id frame (unmatchedDets dets M))
    (h2 : L'2 ∈ lib.lineages.map (fun L => termStep unmA (extendStep M frame L))
        ++ newLineages lib.next_id frame (unmatchedDets dets M))
    (ha1 : assignedIn L'1 frame rid) (ha2 : assignedIn L'2 frame rid) :
    L'1 = L'2 := by
  have hdetnodup : dets.Nodup := List.Nodup.of_map _ hdd
  rcases assigned_frame_classify hfresh h1 ha1 with
    ⟨p1, hp1, L1, hL1, hid1, hr1, hEq1⟩ | ⟨i1, d1, hd1, hr1, hEq1⟩ <;>
    rcases assigned_frame_classify hfresh h2 ha2 with
      ⟨p2, hp2, L2, hL2, hid2, hr2, hEq2⟩ | ⟨i2, d2, hd2, hr2, hEq2⟩
  · have hp12 : p1.2 = p2.2 :=
      List.inj_on_of_nodup_map hdd (hsnd p1 hp1) (hsnd p2 hp2)
        (by rw [hr1, hr2])
    have hpp : p1 = p2 := List.inj_on_of_nodup_map hM2 hp1 hp2 hp12
    have hLL : L1 = L2 := lineage_eq_of_id hnd hL1 hL2
      (by rw [← hid1, ← hid2, hpp])
    rw [hEq1, hEq2, hLL]
  · exfalso
    have hd2mem := List.mem_iff_getElem?.mpr ⟨i2, hd2⟩
    have hd2' := mem_unmatchedDets_iff.mp hd2mem
    have hpd : p1.2 = d2 :=
      List.inj_on_of_nodup_map hdd (hsnd p1 hp1) hd2'.1 (by rw [hr1, hr2])
    exact hd2'.2 (by rw [← hpd]; exact List.mem_map_of_mem _ hp1)
  · exfalso
    have hd1mem := List.mem_iff_getElem?.mpr ⟨i1, hd1⟩
    have hd1' := mem_unmatchedDets_iff.mp hd1mem
    have hpd : p2.2 = d1 :=
      List.inj_on_of_nodup_map hdd (hsnd p2 hp2) hd1'.1 (by rw [hr2, hr1])
    exact hd1'.2 (by rw [← hpd]; exact List.mem_map_of_mem _ hp2)
  · have hmem1 := mem_unmatchedDets_iff.mp (List.mem_iff_getElem?.mpr ⟨i1, hd1⟩)
    have hmem2 := mem_unmatchedDets_iff.mp (List.mem_iff_getElem?.mpr ⟨i2, hd2⟩)
    have hdd12 : d1 = d2 :=
      List.inj_on_of_nodup_map hdd hmem1.1 hmem2.1 (by rw [hr1, hr2])
    have hunm_nodup : (unmatchedDets dets M).Nodup := hdetnodup.filter _
    obtain ⟨hlt1, hget1⟩ := List.getElem?_eq_some.mp hd1
    obtain ⟨hlt2, hget2⟩ := List.getElem?_eq_some.mp hd2
    have hij : i1 = i2 := by
      refine (@List.Nodup.getElem_inj_iff _ _ hunm_nodup i1 hlt1 i2 hlt2).mp ?_
      rw [hget1, hget2, hdd12]
    rw [hEq1, hEq2, hdd12, hij]

/-- C2: after the Matcher processes a frame, every surviving (ACTIVE) lineage
carries exactly one detection of that frame, every detection of the frame
belongs to exactly one lineage (continued via extend or new via create), the
at-most-one-lineage-per-detection invariant is preserved by every frame
transition, and it is established by initialization — so it holds at every
point of the Library's evolution. -/
theorem C2_frame_assignment (lib lib' : Library) (frame : Nat)
    (dets : List Detection) (radius wv : ℚ)
    (hnd : (lib.lineages.map Lineage.lineage_id).Nodup)
    (hfresh : ∀ L ∈ lib.lineages, ∀ e ∈ L.history, e.1 ≠ frame)
    (hdd : (dets.map Detection.region_id).Nodup)
    (h : matchFrame lib frame dets radius wv = Except.ok lib') :
    (∀ L' ∈ lib'.lineages, L'.status = Status.ACTIVE →
        (L'.history.filter (fun e => decide (e.1 = frame))).length = 1)
    ∧ (∀ d ∈ dets, ∃! L', L' ∈ lib'.lineages ∧ assignedIn L' frame d.region_id)
    ∧ (uniqueAssign lib → uniqueAssign lib')
    ∧ (∀ (dets0 : List Detection) (lib0 : Library),
        Library.init dets0 = Except.ok lib0 →
        (dets0.map Detection.region_id).Nodup → uniqueAssign lib0) := by
  obtain ⟨hl, hn, hfacts⟩ := matchFrame_ok hnd h
  have hM1 : ((matchingOf lib dets radius wv).map
      (fun q => q.1.lineage_id)).Nodup := (chooseMatching_oneToOne _ _).1
  have hM2 : ((matchingOf lib dets radius wv).map Prod.snd).Nodup :=
    (chooseMatching_oneToOne _ _).2
  have hsnd : ∀ p ∈ matchingOf lib dets radius wv, p.2 ∈ dets :=
    fun p hp => (matchingOf_mem_cand hp).2.2.1
  have hmemL : ∀ p ∈ matchingOf lib dets radius wv, p.1 ∈ lib.lineages :=
    fun p hp => (matchingOf_mem_cand hp).1
  refine ⟨?_, ?_, ?_, ?_⟩
  · intro L' hL' hs'
    rw [hl] at hL'
    rcases List.mem_append.mp hL' with h1 | h2
    · obtain ⟨L, hL, rfl⟩ := List.mem_map.mp h1
      have hfreshL : L.history.filter (fun e => decide (e.1 = frame)) = [] :=
        List.filter_eq_nil_iff.mpr (fun e he => by simpa using hfresh L hL e he)
      rcases extendStep_cases (matchingOf lib dets radius wv) frame L with
        ⟨hfnone, hee⟩ | ⟨p, hpm, hpid, hee⟩
      · exfalso
        rw [hee] at hs'
        have hnm : L.lineage_id ∉ (matchingOf lib dets radius wv).map
            (fun q => q.1.lineage_id) := by
          intro hmem
          obtain ⟨q, hq, hqid⟩ := List.mem_map.mp hmem
          have hq2 := List.find?_eq_none.mp hfnone q hq
          simp only [decide_eq_true_eq] at hq2
          exact hq2 hqid
        by_cases hact : L.status = Status.ACTIVE
        · have hin := mem_unmatchedActives hL hact hnm
          unfold termStep at hs'
          rw [if_pos hin] at hs'
          simp at hs'
        · rcases termStep_eq _ L with hte | hte <;> rw [hte] at hs'
          · exact hact hs'
          · simp at hs'
      · rw [termStep_history, hee]
        dsimp only
        rw [List.filter_append, hfreshL]
        simp
    · obtain ⟨i, d, hd, rfl⟩ := mem_newLineages.mp h2
      simp
  · intro d hd
    by_cases hdm : d ∈ (matchingOf lib dets radius wv).map Prod.snd
    · obtain ⟨q, hq, hq2⟩ := List.mem_map.mp hdm
      have hcmem : termStep (unmatchedActives lib (matchingOf lib dets radius wv))
          (extendStep (matchingOf lib dets radius wv) frame q.1)
            ∈ lib'.lineages := by
        rw [hl]
        exact List.mem_append_left _ (List.mem_map_of_mem _ (hmemL q hq))
      have hcass : assignedIn
          (termStep (unmatchedActives lib (matchingOf lib dets radius wv))
            (extendStep (matchingOf lib dets radius wv) frame q.1))
          frame d.region_id := by
        have hfind := find?_pair_eq hM1 hq
        refine ⟨(frame, q.2), ?_, rfl, by rw [hq2]⟩
        rw [termStep_history]
        unfold extendStep
        rw [hfind]
        exact List.mem_append_right _ (List.mem_singleton_self _)
      refine ⟨_, ⟨hcmem, hcass⟩, ?_⟩
      intro y hy
      exact assigned_frame_unique hnd hfresh hdd hM2 hsnd
        (by rw [← hl]; exact hy.1) (by rw [← hl]; exact hcmem) hy.2 hcass
    · have hdu : d ∈ unmatchedDets dets (matchingOf lib dets radius wv) :=
        mem_unmatchedDets_iff.mpr ⟨hd, hdm⟩
      obtain ⟨i, hdi⟩ := List.mem_iff_getElem?.mp hdu
      have hcmem : ({ lineage_id := lib.next_id + i, history := [(frame, d)], status := Status.ACTIVE, pruned := false } : Lineage)
            ∈ lib'.lineages := by
        rw [hl]
        exact List.mem_append_right _ (mem_newLineages.mpr ⟨i, d, hdi, rfl⟩)
      have hcass : assignedIn ({ lineage_id := lib.next_id + i, history := [(frame, d)], status := Status.ACTIVE, pruned := false } : Lineage) frame d.region_id :=
        ⟨(frame, d), List.mem_singleton_self _, rfl, rfl⟩
      refine ⟨_, ⟨hcmem, hcass⟩, ?_⟩
      intro y hy
      have hcmem2 : ({ lineage_id := lib.next_id + i, history := [(frame, d)], status := Status.ACTIVE, pruned := false } : Lineage)
            ∈ lib.lineages.map (fun L =>
              termStep (unmatchedActives lib (matchingOf lib dets radius wv))
                (extendStep (matchingOf lib dets radius wv) frame L))
            ++ newLineages lib.next_id frame
              (unmatchedDets dets (matchingOf lib dets radius wv)) :=
        List.mem_append_right _ (mem_newLineages.mpr ⟨i, d, hdi, rfl⟩)
      exact assigned_frame_unique hnd hfresh hdd hM2 hsnd
        (by rw [← hl]; exact hy.1) hcmem2 hy.2 hcass
  · intro hu f rid L1' hL1' L2' hL2' ha1 ha2
    by_cases hf : f = frame
    · subst hf
      exact assigned_frame_unique hnd hfresh hdd hM2 hsnd
        (by rw [← hl]; exact hL1') (by rw [← hl]; exact hL2') ha1 ha2
    · rw [hl] at hL1' hL2'
      rcases List.mem_append.mp hL1' with h1 | h1
      swap
      · exact absurd (assigned_in_new h1 ha1).1 hf
      rcases List.mem_append.mp hL2' with h2 | h2
      swap
      · exact absurd (assigned_in_new h2 ha2).1 hf
      obtain ⟨L1, hL1, rfl⟩ := List.mem_map.mp h1
      obtain ⟨L2, hL2, rfl⟩ := List.mem_map.mp h2
      have ha1' := step_assigned_off hf ha1
      have ha2' := step_assigned_off hf ha2
      rw [hu f rid L1 hL1 L2 hL2 ha1' ha2']
  · intro dets0 lib0 h0 hdd0
    intro f rid L1 hL1 L2 hL2 ha1 ha2
    have hne : dets0.isEmpty = false := by
      cases dets0 with
      | nil => simp [Library.init] at h0
      | cons d rest => rfl
    simp only [Library.init, hne, Bool.false_eq_true, if_false,
      Except.ok.injEq] at h0
    rw [← h0] at hL1 hL2
    obtain ⟨-, i1, d1, hd1, hr1, hEq1⟩ := assigned_in_new hL1 ha1
    obtain ⟨-, i2, d2, hd2, hr2, hEq2⟩ := assigned_in_new hL2 ha2
    have hdets0nd : dets0.Nodup := List.Nodup.of_map _ hdd0
    have hdd12 : d1 = d2 := List.inj_on_of_nodup_map hdd0
      (List.mem_iff_getElem?.mpr ⟨i1, hd1⟩)
      (List.mem_iff_getElem?.mpr ⟨i2, hd2⟩) (by rw [hr1, hr2])
    obtain ⟨hlt1, hget1⟩ := List.getElem?_eq_some.mp hd1
    obtain ⟨hlt2, hget2⟩ := List.getElem?_eq_some.mp hd2
    have hij : i1 = i2 := by
      refine (@List.Nodup.getElem_inj_iff _ _ hdets0nd i1 hlt1 i2 hlt2).mp ?_
      rw [hget1, hget2, hdd12]
    rw [hEq1, hEq2, hdd12, hij]

/-- The sample lineage extended by the frame-1 detection. -/
def sampleLin2 : Lineage :=
  { lineage_id := 0, history := [(0, sampleDet0), (1, sampleDet1)], status := Status.ACTIVE, pruned := false }

/-- Library state after the sample frame-1 transition: the single lineage
extended by the frame-1 detection. -/
def sampleLib2 : Library := { lineages := [sampleLin2], next_id := 1 }

/-- Witness for C2 at a concrete one-lineage, one-detection frame transition:
the surviving lineage carries exactly one frame-1 detection. -/
theorem C2_witness :
    (sampleLin2.history.filter (fun e => decide (e.1 = 1))).length = 1 := by
  have hmf : matchFrame sampleLib 1 [sampleDet1] 5 1 = Except.ok sampleLib2 := by
    unfold matchFrame
    rw [sample_matching_eval]
    rfl
  exact (C2_frame_assignment sampleLib sampleLib2 1 [sampleDet1] 5 1
    (by decide) (by decide) (by decide) hmf).1 sampleLin2
    (by simp [sampleLib2]) (by rfl)

end FUSE

namespace Script

/-- One row of the metadata csv read by the script (`info_df`): frame index,
region of interest id, channel label, and the centroid string; other columns
play no role in the claims. -/
structure InfoRow where
  frame : Nat
  roi : ℤ
  channel : String
  centroid : String
deriving DecidableEq

/-- Numeric value of a digit string. -/
def digitsVal (cs : List Char) : Nat :=
  cs.foldl (fun acc c => acc * 10 + (c.toNat - '0'.toNat)) 0

/-- Decimal-notation fragment of Python's float parser: optional sign, integer
part, optional fractional part (exponents and specials are not modelled; the
claims do not depend on the float grammar). -/
def parseRat (s : String) : Option ℚ :=
  let cs := s.toList
  let sign : ℚ := if cs.head? = some '-' then -1 else 1
  let cs2 := if cs.head? = some '-' ∨ cs.head? = some '+' then cs.tail else cs
  match cs2.span Char.isDigit with
  | (ip, rest) =>
    if ip = [] then none
    else
      match rest with
      | [] => some (sign * (digitsVal ip : ℚ))
      | '.' :: frac =>
        if frac ≠ [] ∧ frac.all Char.isDigit then
          some (sign * ((digitsVal ip : ℚ)
            + (digitsVal frac : ℚ) / (10 : ℚ) ^ frac.length))
        else none
      | _ => none

/-- Translated from `info_df['Centroid'].str.strip('()')`: remove leading and
trailing parenthesis characters. -/
def stripParens (s : String) : String :=
  let isParen : Char → Bool := fun c => c == '(' || c == ')'
  ⟨((s.toList.dropWhile isParen).reverse.dropWhile isParen).reverse⟩

/-- Translated from lines 88–93 of the script: strip parens, split on a
comma-space into two fields, convert each to float. -/
def parseCentroid (s : String) : Option (ℚ × ℚ) :=
  match (stripParens s).splitOn ", " with
  | [a, b] =>
    match parseRat a, parseRat b with
    | some x, some y => some (x, y)
    | _, _ => none
  | _ => none

/-- Pandas-style positional index attached to each row, counting from `n`. -/
def idxFrom {α : Type} (n : Nat) : List α → List (Nat × α)
  | [] => []
  | a :: l => (n, a) :: idxFrom (n + 1) l

/-- Translated from lines 88–93: the centroid series is computed over ALL rows
of `info_df` (before any channel filtering) and carries the table's index. -/
def centroidSeries (info : List InfoRow) : List (Nat × Option (ℚ × ℚ)) :=
  (idxFrom 0 info).map (fun p => (p.1, parseCentroid p.2.centroid))

/-- One row of the detection table `df` handed to the Library and the matcher:
original index, frame, region id, and the (x, y) coordinates assigned from
the centroid series. -/
structure DetRow where
  idx : Nat
  frame : Nat
  roi : ℤ
  xy : Option (ℚ × ℚ)
deriving DecidableEq

/-- Translated from lines 86–94 of the script:
`df = info_df[['Frame','ROI']].copy()` restricted to the rows whose Channel
equals the configured channel, then `df[['x','y']] = centroids`, which pandas
aligns on the index — each kept row receives the centroid parsed from the
metadata row with the same index. -/
def detectionTable (info : List InfoRow) (channel : String) : List DetRow :=
  ((idxFrom 0 info).filter (fun p => decide (p.2.channel = channel))).map
    (fun p => { idx := p.1, frame := p.2.frame, roi := p.2.roi,
                xy := ((centroidSeries info).lookup p.1).join })

theorem idxFrom_getElem? {α : Type} (n : Nat) (l : List α) (i : Nat) :
    (idxFrom n l)[i]? = l[i]?.map (fun a => (n + i, a)) := by
  induction l generalizing n i with
  | nil => simp [idxFrom]
  | cons x l ih =>
    cases i with
    | zero => simp [idxFrom]
    | succ j =>
      simp only [idxFrom, List.getElem?_cons_succ, ih (n + 1) j]
      have : n + 1 + j = n + (j + 1) := by omega
      rw [this]

theorem mem_idxFrom_zero {α : Type} {l : List α} {i : Nat} {a : α} :
    (i, a) ∈ idxFrom 0 l ↔ l[i]? = some a := by
  constructor
  · intro h
    obtain ⟨j, hj⟩ := List.mem_iff_getElem?.mp h
    rw [idxFrom_getElem?] at hj
    cases hx : l[j]? with
    | none => rw [hx] at hj; simp at hj
    | some b =>
      rw [hx] at hj
      simp only [Option.map_some', Option.some.injEq, Prod.mk.injEq] at hj
      obtain ⟨hji, hba⟩ := hj
      have hij : i = j := by omega
      rw [hij, hx, hba]
  · intro h
    refine List.mem_iff_getElem?.mpr ⟨i, ?_⟩
    rw [idxFrom_getElem?, h]
    simp

theorem lookup_idx_map {α β : Type} (f : α → β) :
    ∀ (l : List α) (n i : Nat) (a : α), l[i]? = some a →
    ((idxFrom n l).map (fun p => (p.1, f p.2))).lookup (n + i) = some (f a) := by
  intro l
  induction l with
  | nil => intro n i a h; simp at h
  | cons x l ih =>
    intro n i a h
    cases i with
    | zero =>
      simp only [List.getElem?_cons_zero, Option.some.injEq] at h
      subst h
      show List.lookup (n + 0) ((n, f x) :: _) = some (f x)
      simp [List.lookup]
    | succ j =>
      show List.lookup (n + (j + 1)) ((n, f x) :: _) = some (f a)
      have hne : (n + (j + 1) == n) = false := by
        simp only [beq_eq_false_iff_ne, ne_eq]
        omega
      rw [List.lookup_cons, hne]
      have : n + (j + 1) = (n + 1) + j := by omega
      rw [this]
      exact ih (n + 1) j a (by simpa using h)

theorem lookup_centroidSeries {info : List InfoRow} {i : Nat} {r : InfoRow}
    (h : info[i]? = some r) :
    (centroidSeries info).lookup i = some (parseCentroid r.centroid) := by
  have h2 := lookup_idx_map (fun r => parseCentroid r.centroid) info 0 i r h
  simpa using h2

/-- C9: the detection table handed to the Library and the matcher consists of
exactly the metadata rows whose Channel equals the configured channel — each
carrying (x, y) parsed from that same row's Centroid string via the
index-aligned assignment — so detections recorded under any other channel
never enter the matching and are never assigned a lineage. -/
theorem C9_detection_table (info : List InfoRow) (channel : String) :
    (∀ e ∈ detectionTable info channel, ∃ r, info[e.idx]? = some r
        ∧ r.channel = channel ∧ e.frame = r.frame ∧ e.roi = r.roi
        ∧ e.xy = parseCentroid r.centroid)
    ∧ (∀ (i : Nat) (r : InfoRow), info[i]? = some r → r.channel = channel →
        ({ idx := i, frame := r.frame, roi := r.roi, xy := parseCentroid r.centroid } : DetRow) ∈ detectionTable info channel) := by
  constructor
  · intro e he
    unfold detectionTable at he
    obtain ⟨p, hp, hpe⟩ := List.mem_map.mp he
    have hpf := List.mem_filter.mp hp
    have hr : info[p.1]? = some p.2 := mem_idxFrom_zero.mp hpf.1
    refine ⟨p.2, ?_, by simpa using hpf.2, ?_, ?_, ?_⟩
    · rw [← hpe]
      exact hr
    · rw [← hpe]
    · rw [← hpe]
    · rw [← hpe]
      show ((centroidSeries info).lookup p.1).join = _
      rw [lookup_centroidSeries hr]
      rfl
  · intro i r hir hch
    unfold detectionTable
    refine List.mem_map.mpr ⟨(i, r),
      List.mem_filter.mpr ⟨mem_idxFrom_zero.mpr hir, by simp [hch]⟩, ?_⟩
    dsimp only
    rw [lookup_centroidSeries hir]
    rfl

/-- Sample metadata row used by the witnesses. -/
def sampleRow : InfoRow :=
  { frame := 0, roi := 0, channel := "RFP", centroid := "(1.5, 2)" }

/-- Witness for C9: the single RFP row of a one-row table appears in the
detection table with its own centroid parse. -/
theorem C9_witness :
    ({ idx := 0, frame := 0, roi := 0, xy := parseCentroid sampleRow.centroid } : DetRow) ∈ detectionTable [sampleRow] "RFP" :=
  (C9_detection_table [sampleRow] "RFP").2 0 sampleRow (by rfl) (by rfl)

/-- One row of the table produced by the core (`lib.to_dataframe()`): frame,
cell id (mask region label) and lineage id. -/
structure ResultRow where
  frame : Nat
  cell_id : ℤ
  lineage_id : Nat
deriving DecidableEq

/-- Translated from lines 179–180 of the script: rename cell_id to ROI and
lineage_id to Label, then decrement ROI by one; row = (Frame, ROI, Label). -/
def adjustedResults (res : List ResultRow) : List (Nat × ℤ × Nat) :=
  res.map (fun r => (r.frame, r.cell_id - 1, r.lineage_id))

/-- Translated from line 182 of the script: a pandas left merge of the full
metadata table with the results on (ROI, Frame) — every left row is kept,
one output row per matching result row, null Label when nothing matches. -/
def leftMerge (info : List InfoRow) (res : List (Nat × ℤ × Nat)) :
    List (InfoRow × Option Nat) :=
  info.flatMap (fun l =>
    match res.filter (fun r => decide (r.2.1 = l.roi ∧ r.1 = l.frame)) with
    | [] => [(l, none)]
    | ms => ms.map (fun r => (l, some r.2.2)))

/-- Translated from lines 178–182: the exported table. -/
def finalTable (info : List InfoRow) (res : List ResultRow) :
    List (InfoRow × Option Nat) :=
  leftMerge info (adjustedResults res)

/-- C10: in the export, every core cell id is decremented by one before the
join, so a core detection with region id r attaches to the metadata row with
ROI = r - 1 of the same frame; the left merge keeps every metadata row, and
rows no surviving lineage matches carry a null Label. -/
theorem C10_export_join (info : List InfoRow) (res : List ResultRow) :
    (∀ l ∈ info, ∃ o, (l, o) ∈ finalTable info res)
    ∧ (∀ l ∈ info, (∀ r ∈ res, ¬(r.cell_id - 1 = l.roi ∧ r.frame = l.frame)) →
        (l, none) ∈ finalTable info res)
    ∧ (∀ r ∈ res, ∀ l ∈ info, l.roi = r.cell_id - 1 → l.frame = r.frame →
        (l, some r.lineage_id) ∈ finalTable info res) := by
  refine ⟨?_, ?_, ?_⟩
  · intro l hl
    cases hf : (adjustedResults res).filter
        (fun r => decide (r.2.1 = l.roi ∧ r.1 = l.frame)) with
    | nil =>
      refine ⟨none, List.mem_flatMap.mpr ⟨l, hl, ?_⟩⟩
      rw [hf]
      exact List.mem_singleton_self _
    | cons m ms =>
      refine ⟨some m.2.2, List.mem_flatMap.mpr ⟨l, hl, ?_⟩⟩
      rw [hf]
      exact List.mem_cons_self _ _
  · intro l hl hno
    have hf : (adjustedResults res).filter
        (fun r => decide (r.2.1 = l.roi ∧ r.1 = l.frame)) = [] := by
      rw [List.filter_eq_nil_iff]
      intro r hr
      obtain ⟨r0, hr0, rfl⟩ := List.mem_map.mp hr
      simpa using hno r0 hr0
    refine List.mem_flatMap.mpr ⟨l, hl, ?_⟩
    rw [hf]
    exact List.mem_singleton_self _
  · intro r hr l hl hroi hframe
    have hmem : (r.frame, r.cell_id - 1, r.lineage_id) ∈
        (adjustedResults res).filter
          (fun q => decide (q.2.1 = l.roi ∧ q.1 = l.frame)) := by
      refine List.mem_filter.mpr ⟨List.mem_map_of_mem _ hr, ?_⟩
      simp [hroi, hframe]
    refine List.mem_flatMap.mpr ⟨l, hl, ?_⟩
    cases hf : (adjustedResults res).filter
        (fun q => decide (q.2.1 = l.roi ∧ q.1 = l.frame)) with
    | nil => rw [hf] at hmem; cases hmem
    | cons m ms =>
      rw [hf] at hmem
      have himg := List.mem_map_of_mem (fun q => (l, some q.2.2)) hmem
      exact himg

/-- Sample result row used by the witness. -/
def sampleRes : ResultRow := { frame := 0, cell_id := 1, lineage_id := 7 }

/-- Witness for C10: a core detection with cell id 1 attaches to the metadata
row with ROI 0 of the same frame. -/
theorem C10_witness : (sampleRow, some sampleRes.lineage_id)
    ∈ finalTable [sampleRow] [sampleRes] :=
  (C10_export_join [sampleRow] [sampleRes]).2.2 sampleRes
    (List.mem_singleton_self _) sampleRow (List.mem_singleton_self _)
    (by decide) (by rfl)

end Script
